import Mathlib

/-!
Shallow embedding of the trek schema-migration runner (the snapshot with the
`running` bookkeeping flag: global registry, option parsing, version-history
table, and the UP/DOWN migration engine).

Modelling conventions:
* the version-history table is a `List Row` in insertion order, so the row
  with the greatest surrogate id is the last element;
* the injected SQL executor is abstracted by `Env`: `execCreate` is the
  outcome of the CREATE TABLE statement and `insertResult v r` the outcome of
  inserting the row `(v, r)` (a `none` outcome is success);
* a user migration handler is abstracted by the outcome it returns when
  invoked, so an `Up`/`Down` field is `none` when the handler is absent and
  `some r` when it is present and returns outcome `r`; its writes to the user
  schema never feed back into the engine, so they are not modelled;
* `int64` versions are modelled as `Int` (no claim involves overflow).
-/

namespace trek

abbrev Err := String

def UP : String := "up"

def DOWN : String := "down"

def POSTGRES : String := "postgres"

def MYSQL : String := "mysql"

def errUnrecognizedDatabase : Err := "trek: unrecognized database"

def errUnrecognizedAction : Err := "trek: unrecognized action"

def errPreviousMigrationNotFound : Err := "trek: previous migration not found"

def errVersionAlreadyRegistered : Err := "trek: version already registered"

def errMigrationAlreadyRunning : Err := "trek: migration already running"

/-- One registered migration: its version and the outcomes of its handlers
(`none` = handler absent, `some none` = handler succeeds,
`some (some e)` = handler fails with error `e`). -/
structure migration where
  Version : Int
  Up : Option (Option Err)
  Down : Option (Option Err)
deriving DecidableEq, Repr

/-- The parsed run configuration. -/
structure configuration where
  Action : String
  Database : String
deriving DecidableEq, Repr

/-- One row of the version-history table (surrogate id = list position). -/
structure Row where
  version : Int
  running : Bool
deriving DecidableEq, Repr

/-- Outcomes of the injected SQL executor's statements. -/
structure Env where
  execCreate : Option Err
  insertResult : Int → Bool → Option Err

/-- An executor on which every statement succeeds. -/
def allOk : Env := ⟨none, fun _ _ => none⟩

/-- An executor on which exactly the insert of row `(v, r)` fails with `e`. -/
def failInsert (v : Int) (r : Bool) (e : Err) : Env :=
  ⟨none, fun v2 r2 => if v2 == v && r2 == r then some e else none⟩

def versionAlreadyRegistered (ms : List migration) (version : Int) : Bool :=
  ms.any (fun m => m.Version == version)

/-- `Register` over an explicit registry state: rejects duplicate versions,
otherwise appends. Returns the new registry and the returned error. -/
def Register (ms : List migration) (version : Int)
    (up down : Option (Option Err)) : List migration × Option Err :=
  if versionAlreadyRegistered ms version then
    (ms, some errVersionAlreadyRegistered)
  else
    (ms ++ [⟨version, up, down⟩], none)

/-- One iteration of the option-parsing switch. The `UP` and `POSTGRES`
cases are empty in the source (Go switch cases do not fall through), so
those tokens leave the configuration unchanged. -/
def applyOption (config : configuration) (opt : String) : configuration :=
  if opt == UP then config
  else if opt == DOWN then ⟨opt, config.Database⟩
  else if opt == POSTGRES then config
  else if opt == MYSQL then ⟨config.Action, opt⟩
  else config

def parseOptions (options : List String) : configuration :=
  options.foldl applyOption ⟨UP, POSTGRES⟩

/-- CREATE TABLE dispatch: the statement runs (outcome `env.execCreate`)
for the two recognized dialects, other dialects fail immediately. -/
def createTable (env : Env) (config : configuration) : Option Err :=
  if config.Database == POSTGRES then env.execCreate
  else if config.Database == MYSQL then env.execCreate
  else some errUnrecognizedDatabase

/-- Read the current version from the most recent history row. -/
def getVersion (s : List Row) : Int × Option Err :=
  match s.getLast? with
  | none => (0, none)
  | some r =>
    if r.running then (r.version, some errMigrationAlreadyRunning)
    else (r.version, none)

/-- Insert a `(version, running)` history row via the executor. -/
def setVersion (env : Env) (config : configuration) (s : List Row)
    (version : Int) (running : Bool) : Except Err (List Row) :=
  if config.Database == POSTGRES || config.Database == MYSQL then
    match env.insertResult version running with
    | some e => Except.error e
    | none => Except.ok (s ++ [⟨version, running⟩])
  else Except.error errUnrecognizedDatabase

/-- Result of one engine step: the returned new version, the history table
after the step, and the returned error. -/
structure EngineResult where
  newVersion : Int
  rows : List Row
  err : Option Err
deriving DecidableEq, Repr

/-- The loop body of `runUp`: walk the (sorted) registry, skipping
migrations at or below the old version and migrations with an absent up
handler; otherwise record `running = true`, run the handler, record
`running = false`, and advance `newVersion`. -/
def runUpLoop (env : Env) (config : configuration) (oldVersion : Int) :
    List migration → Int → List Row → EngineResult
  | [], newVersion, s => ⟨newVersion, s, none⟩
  | m :: rest, newVersion, s =>
    if m.Version ≤ oldVersion ∨ m.Up = none then
      runUpLoop env config oldVersion rest newVersion s
    else
      match setVersion env config s m.Version true with
      | Except.error e => ⟨newVersion, s, some e⟩
      | Except.ok s1 =>
        match m.Up with
        | some (some e) => ⟨newVersion, s1, some e⟩
        | _ =>
          match setVersion env config s1 m.Version false with
          | Except.error e => ⟨newVersion, s1, some e⟩
          | Except.ok s2 => runUpLoop env config oldVersion rest m.Version s2

def runUp (env : Env) (config : configuration) (ms : List migration)
    (oldVersion : Int) (s : List Row) : EngineResult :=
  runUpLoop env config oldVersion ms oldVersion s

/-- `runDown`: no-op at version 0, otherwise scan the sorted registry from
the end for the greatest version at most the old version, and step down to
that migration's version minus one. -/
def runDown (env : Env) (config : configuration) (ms : List migration)
    (oldVersion : Int) (s : List Row) : EngineResult :=
  if oldVersion = 0 then ⟨0, s, none⟩
  else
    match ms.reverse.find? (fun m => decide (m.Version ≤ oldVersion)) with
    | none => ⟨oldVersion, s, some errPreviousMigrationNotFound⟩
    | some m =>
      match setVersion env config s (m.Version - 1) true with
      | Except.error e => ⟨oldVersion, s, some e⟩
      | Except.ok s1 =>
        match m.Down with
        | some (some e) => ⟨oldVersion, s1, some e⟩
        | _ =>
          match setVersion env config s1 (m.Version - 1) false with
          | Except.error e => ⟨oldVersion, s1, some e⟩
          | Except.ok s2 => ⟨m.Version - 1, s2, none⟩

/-- Action dispatch. On an unrecognized action the Go named return
`newVersion` is never assigned, so `0` is returned together with the error. -/
def runMigrations (env : Env) (config : configuration) (ms : List migration)
    (oldVersion : Int) (s : List Row) : EngineResult :=
  if config.Action == UP then runUp env config ms oldVersion s
  else if config.Action == DOWN then runDown env config ms oldVersion s
  else ⟨0, s, some errUnrecognizedAction⟩

def insertByVersion (m : migration) : List migration → List migration
  | [] => [m]
  | x :: xs =>
    if m.Version ≤ x.Version then m :: x :: xs else x :: insertByVersion m xs

/-- Sorting the registry ascending by version (`sort.Sort(byVersion ...)`;
on the unique versions produced by `Register` the order is unique). -/
def sortByVersion (ms : List migration) : List migration :=
  ms.foldr insertByVersion []

/-- The contract returned by `Run`, plus the resulting history table. -/
structure RunResult where
  didChange : Bool
  newVersion : Int
  err : Option Err
  rows : List Row
deriving DecidableEq, Repr

/-- `Run` over an explicit registry and history state: empty registry is a
no-op, otherwise sort, parse options, ensure the table, read the current
version, dispatch, and report whether the version changed. On an early
error the Go named return `newVersion` is still `0`. -/
def Run (env : Env) (ms : List migration) (options : List String)
    (s : List Row) : RunResult :=
  if ms = [] then ⟨false, 0, none, s⟩
  else
    let config := parseOptions options
    match createTable env config with
    | some e => ⟨false, 0, some e, s⟩
    | none =>
      match getVersion s with
      | (_, some e) => ⟨false, 0, some e, s⟩
      | (oldVersion, none) =>
        let r := runMigrations env config (sortByVersion ms) oldVersion s
        ⟨oldVersion != r.newVersion, r.newVersion, r.err, r.rows⟩

end trek

namespace trek

theorem applyOption_action_of_ne (config : configuration) (opt : String)
    (h : opt ≠ DOWN) : (applyOption config opt).Action = config.Action := by
  simp only [applyOption]
  split_ifs with h1 h2 h3 h4
  · rfl
  · exact absurd (by simpa using h2) h
  · rfl
  · rfl
  · rfl

theorem applyOption_db_of_ne (config : configuration) (opt : String)
    (h : opt ≠ MYSQL) : (applyOption config opt).Database = config.Database := by
  simp only [applyOption]
  split_ifs with h1 h2 h3 h4
  · rfl
  · rfl
  · rfl
  · exact absurd (by simpa using h4) h
  · rfl

theorem applyOption_action_eq_or (config : configuration) (opt : String) :
    (applyOption config opt).Action = config.Action ∨
      (applyOption config opt).Action = DOWN := by
  simp only [applyOption]
  split_ifs with h1 h2 h3 h4
  · exact Or.inl rfl
  · exact Or.inr (by simpa using h2)
  · exact Or.inl rfl
  · exact Or.inl rfl
  · exact Or.inl rfl

theorem applyOption_db_eq_or (config : configuration) (opt : String) :
    (applyOption config opt).Database = config.Database ∨
      (applyOption config opt).Database = MYSQL := by
  simp only [applyOption]
  split_ifs with h1 h2 h3 h4
  · exact Or.inl rfl
  · exact Or.inl rfl
  · exact Or.inl rfl
  · exact Or.inr (by simpa using h4)
  · exact Or.inl rfl

theorem applyOption_down (config : configuration) :
    applyOption config DOWN = ⟨DOWN, config.Database⟩ := rfl

theorem applyOption_mysql (config : configuration) :
    applyOption config MYSQL = ⟨config.Action, MYSQL⟩ := rfl

theorem foldl_applyOption_action_of_not_mem :
    ∀ (opts : List String) (config : configuration), DOWN ∉ opts →
      (List.foldl applyOption config opts).Action = config.Action := by
  intro opts
  induction opts with
  | nil => intro config _; rfl
  | cons a t ih =>
    intro config h
    rw [List.foldl_cons]
    rw [ih (applyOption config a) (fun hm => h (List.mem_cons_of_mem _ hm))]
    exact applyOption_action_of_ne config a
      (fun he => h (List.mem_cons.mpr (Or.inl he.symm)))

theorem foldl_applyOption_db_of_not_mem :
    ∀ (opts : List String) (config : configuration), MYSQL ∉ opts →
      (List.foldl applyOption config opts).Database = config.Database := by
  intro opts
  induction opts with
  | nil => intro config _; rfl
  | cons a t ih =>
    intro config h
    rw [List.foldl_cons]
    rw [ih (applyOption config a) (fun hm => h (List.mem_cons_of_mem _ hm))]
    exact applyOption_db_of_ne config a
      (fun he => h (List.mem_cons.mpr (Or.inl he.symm)))

theorem foldl_applyOption_action_stable :
    ∀ (opts : List String) (config : configuration), config.Action = DOWN →
      (List.foldl applyOption config opts).Action = DOWN := by
  intro opts
  induction opts with
  | nil => intro config h; exact h
  | cons a t ih =>
    intro config h
    rw [List.foldl_cons]
    rcases applyOption_action_eq_or config a with h2 | h2
    · exact ih _ (h2.trans h)
    · exact ih _ h2

theorem foldl_applyOption_db_stable :
    ∀ (opts : List String) (config : configuration), config.Database = MYSQL →
      (List.foldl applyOption config opts).Database = MYSQL := by
  intro opts
  induction opts with
  | nil => intro config h; exact h
  | cons a t ih =>
    intro config h
    rw [List.foldl_cons]
    rcases applyOption_db_eq_or config a with h2 | h2
    · exact ih _ (h2.trans h)
    · exact ih _ h2

theorem foldl_applyOption_action_of_mem :
    ∀ (opts : List String) (config : configuration), DOWN ∈ opts →
      (List.foldl applyOption config opts).Action = DOWN := by
  intro opts
  induction opts with
  | nil => intro config h; exact absurd h (List.not_mem_nil _)
  | cons a t ih =>
    intro config h
    rw [List.foldl_cons]
    rcases List.mem_cons.mp h with he | hm
    · rw [← he, applyOption_down]
      exact foldl_applyOption_action_stable t _ rfl
    · exact ih _ hm

theorem foldl_applyOption_db_of_mem :
    ∀ (opts : List String) (config : configuration), MYSQL ∈ opts →
      (List.foldl applyOption config opts).Database = MYSQL := by
  intro opts
  induction opts with
  | nil => intro config h; exact absurd h (List.not_mem_nil _)
  | cons a t ih =>
    intro config h
    rw [List.foldl_cons]
    rcases List.mem_cons.mp h with he | hm
    · rw [← he, applyOption_mysql]
      exact foldl_applyOption_db_stable t _ rfl
    · exact ih _ hm

theorem foldl_applyOption_action_cases :
    ∀ (opts : List String) (config : configuration),
      (List.foldl applyOption config opts).Action = config.Action ∨
        (List.foldl applyOption config opts).Action = DOWN := by
  intro opts
  induction opts with
  | nil => intro config; exact Or.inl rfl
  | cons a t ih =>
    intro config
    rw [List.foldl_cons]
    rcases applyOption_action_eq_or config a with h2 | h2
    · rcases ih (applyOption config a) with h3 | h3
      · exact Or.inl (h3.trans h2)
      · exact Or.inr h3
    · rcases ih (applyOption config a) with h3 | h3
      · exact Or.inr (h3.trans h2)
      · exact Or.inr h3

theorem foldl_applyOption_db_cases :
    ∀ (opts : List String) (config : configuration),
      (List.foldl applyOption config opts).Database = config.Database ∨
        (List.foldl applyOption config opts).Database = MYSQL := by
  intro opts
  induction opts with
  | nil => intro config; exact Or.inl rfl
  | cons a t ih =>
    intro config
    rw [List.foldl_cons]
    rcases applyOption_db_eq_or config a with h2 | h2
    · rcases ih (applyOption config a) with h3 | h3
      · exact Or.inl (h3.trans h2)
      · exact Or.inr h3
    · rcases ih (applyOption config a) with h3 | h3
      · exact Or.inr (h3.trans h2)
      · exact Or.inr h3

theorem parseOptions_db_recognized (opts : List String) :
    (parseOptions opts).Database = POSTGRES ∨
      (parseOptions opts).Database = MYSQL :=
  foldl_applyOption_db_cases opts ⟨UP, POSTGRES⟩

theorem createTable_parseOptions (env : Env) (opts : List String) :
    createTable env (parseOptions opts) = env.execCreate := by
  rcases parseOptions_db_recognized opts with h | h <;>
    simp [createTable, h, POSTGRES, MYSQL]

end trek

namespace trek

/-- Claim C9: option parsing is a pure total function: a token sequence with
no recognized token of a category defaults that category (action UP,
database POSTGRES), every result is a valid configuration (unrecognized
tokens are ignored, there is no error outcome), and the tokens MYSQL and
DOWN in either order yield the configuration (DOWN, MYSQL). -/
theorem C9_parseOptions_defaults_and_total :
    (∀ opts : List String, UP ∉ opts → DOWN ∉ opts →
      (parseOptions opts).Action = UP) ∧
    (∀ opts : List String, POSTGRES ∉ opts → MYSQL ∉ opts →
      (parseOptions opts).Database = POSTGRES) ∧
    (∀ opts : List String,
      ((parseOptions opts).Action = UP ∨ (parseOptions opts).Action = DOWN) ∧
      ((parseOptions opts).Database = POSTGRES ∨
        (parseOptions opts).Database = MYSQL)) ∧
    parseOptions [MYSQL, DOWN] = ⟨DOWN, MYSQL⟩ ∧
    parseOptions [DOWN, MYSQL] = ⟨DOWN, MYSQL⟩ := by
  refine ⟨?_, ?_, ?_, by decide, by decide⟩
  · intro opts _ h2
    exact foldl_applyOption_action_of_not_mem opts ⟨UP, POSTGRES⟩ h2
  · intro opts _ h2
    exact foldl_applyOption_db_of_not_mem opts ⟨UP, POSTGRES⟩ h2
  · intro opts
    exact ⟨foldl_applyOption_action_cases opts ⟨UP, POSTGRES⟩,
      foldl_applyOption_db_cases opts ⟨UP, POSTGRES⟩⟩

/-- Witness for C9 at concrete inputs. -/
theorem C9_parseOptions_defaults_and_total_witness :
    (parseOptions ["bogus"]).Action = UP ∧
    (parseOptions ["bogus"]).Database = POSTGRES ∧
    ((parseOptions ["down"]).Action = UP ∨
      (parseOptions ["down"]).Action = DOWN) :=
  ⟨C9_parseOptions_defaults_and_total.1 ["bogus"] (by decide) (by decide),
   C9_parseOptions_defaults_and_total.2.1 ["bogus"] (by decide) (by decide),
   (C9_parseOptions_defaults_and_total.2.2.1 ["down"]).1⟩

/-- Claim C10: the tokens "up" and "postgres" are never acted upon. Any
token sequence containing "down" parses the action as DOWN even when "up"
is also present, any sequence containing "mysql" parses the database as
MYSQL even when "postgres" is also present, and deleting an occurrence of
"up" or of "postgres" from a token sequence never changes the parsed
configuration. -/
theorem C10_up_postgres_tokens_ignored :
    (∀ opts : List String, DOWN ∈ opts → UP ∈ opts →
      (parseOptions opts).Action = DOWN) ∧
    (∀ opts : List String, MYSQL ∈ opts → POSTGRES ∈ opts →
      (parseOptions opts).Database = MYSQL) ∧
    (∀ l1 l2 : List String,
      parseOptions (l1 ++ UP :: l2) = parseOptions (l1 ++ l2)) ∧
    (∀ l1 l2 : List String,
      parseOptions (l1 ++ POSTGRES :: l2) = parseOptions (l1 ++ l2)) := by
  refine ⟨?_, ?_, ?_, ?_⟩
  · intro opts h _
    exact foldl_applyOption_action_of_mem opts ⟨UP, POSTGRES⟩ h
  · intro opts h _
    exact foldl_applyOption_db_of_mem opts ⟨UP, POSTGRES⟩ h
  · intro l1 l2
    simp only [parseOptions, List.foldl_append, List.foldl_cons]
    rfl
  · intro l1 l2
    simp only [parseOptions, List.foldl_append, List.foldl_cons]
    rfl

/-- Witness for C10 at concrete inputs. -/
theorem C10_up_postgres_tokens_ignored_witness :
    (parseOptions ["up", "down"]).Action = DOWN ∧
    (parseOptions ["postgres", "mysql"]).Database = MYSQL ∧
    parseOptions (["a"] ++ UP :: ["down"]) = parseOptions (["a"] ++ ["down"]) :=
  ⟨C10_up_postgres_tokens_ignored.1 ["up", "down"] (by decide) (by decide),
   C10_up_postgres_tokens_ignored.2.1 ["postgres", "mysql"] (by decide)
     (by decide),
   C10_up_postgres_tokens_ignored.2.2.1 ["a"] ["down"]⟩

end trek

namespace trek

/-- Claim C3: running UP with one registered migration (version 1, no-op
procedures) from current version 0 returns (changed = true, newVersion = 1,
no error); immediately running UP again on the resulting history returns
(changed = false, newVersion = 1, no error): with nothing pending the new
version equals the unchanged current version and changed is false. -/
theorem C3_up_then_up_boundary :
    Run allOk [⟨1, some none, some none⟩] [] [] =
      ⟨true, 1, none, [⟨1, true⟩, ⟨1, false⟩]⟩ ∧
    Run allOk [⟨1, some none, some none⟩] [] [⟨1, true⟩, ⟨1, false⟩] =
      ⟨false, 1, none, [⟨1, true⟩, ⟨1, false⟩]⟩ := by
  decide

theorem runMigrations_unrecognized (env : Env) (config : configuration)
    (ms : List migration) (oldVersion : Int) (s : List Row)
    (h1 : config.Action ≠ UP) (h2 : config.Action ≠ DOWN) :
    runMigrations env config ms oldVersion s =
      ⟨0, s, some errUnrecognizedAction⟩ := by
  simp [runMigrations, h1, h2]

/-- Counterexample to claim C7: dispatching the unrecognized action
"sideways" from current version 5 returns new version 0, not the input
current version 5. -/
theorem C7_counterexample :
    runMigrations allOk ⟨"sideways", POSTGRES⟩ [] 5 [] =
      ⟨0, [], some errUnrecognizedAction⟩ ∧
    (runMigrations allOk ⟨"sideways", POSTGRES⟩ [] 5 []).newVersion ≠ 5 := by
  decide

/-- Claim C7 amended: for every action value outside UP and DOWN and every
input current version, the migration dispatch fails with UnrecognizedAction
and the returned new version is 0 (the zero value of the named return),
regardless of the input current version. -/
theorem C7_amended_unrecognized_action (env : Env) (config : configuration)
    (ms : List migration) (oldVersion : Int) (s : List Row)
    (h1 : config.Action ≠ UP) (h2 : config.Action ≠ DOWN) :
    runMigrations env config ms oldVersion s =
      ⟨0, s, some errUnrecognizedAction⟩ :=
  runMigrations_unrecognized env config ms oldVersion s h1 h2

/-- Witness for the amended C7 at a concrete input. -/
theorem C7_amended_unrecognized_action_witness :
    runMigrations allOk ⟨"sideways", POSTGRES⟩ [] 7 [] =
      ⟨0, [], some errUnrecognizedAction⟩ :=
  C7_amended_unrecognized_action allOk ⟨"sideways", POSTGRES⟩ [] 7 []
    (by decide) (by decide)

def registerAll :
    List (Int × Option (Option Err) × Option (Option Err)) →
      List migration → List migration × Bool
  | [], ms => (ms, false)
  | c :: rest, ms =>
    match Register ms c.1 c.2.1 c.2.2 with
    | (ms1, e) =>
      match registerAll rest ms1 with
      | (ms2, anyErr) => (ms2, e.isSome || anyErr)

theorem versionAlreadyRegistered_append (ms : List migration) (m : migration)
    (v : Int) :
    versionAlreadyRegistered (ms ++ [m]) v =
      (versionAlreadyRegistered ms v || (m.Version == v)) := by
  simp [versionAlreadyRegistered, List.any_append]

theorem registerAll_ok :
    ∀ (calls : List (Int × Option (Option Err) × Option (Option Err)))
      (ms : List migration),
      (calls.map (fun c => c.1)).Pairwise (fun a b => a ≠ b) →
      (∀ c ∈ calls, versionAlreadyRegistered ms c.1 = false) →
      (registerAll calls ms).2 = false ∧
        (registerAll calls ms).1.length = ms.length + calls.length := by
  intro calls
  induction calls with
  | nil => intro ms _ _; exact ⟨rfl, by simp [registerAll]⟩
  | cons c rest ih =>
    intro ms hpw hfree
    rw [List.map_cons] at hpw
    have hpc := List.pairwise_cons.mp hpw
    have hc : versionAlreadyRegistered ms c.1 = false :=
      hfree c (List.mem_cons_self c rest)
    have hreg : Register ms c.1 c.2.1 c.2.2 =
        (ms ++ [⟨c.1, c.2.1, c.2.2⟩], none) := by
      simp [Register, hc]
    have hfree2 : ∀ c2 ∈ rest,
        versionAlreadyRegistered (ms ++ [⟨c.1, c.2.1, c.2.2⟩]) c2.1 = false := by
      intro c2 hc2
      rw [versionAlreadyRegistered_append]
      have h1 : versionAlreadyRegistered ms c2.1 = false :=
        hfree c2 (List.mem_cons_of_mem c hc2)
      have h2 : c.1 ≠ c2.1 :=
        hpc.1 c2.1 (List.mem_map_of_mem (fun c => c.1) hc2)
      simp [h1, h2]
    have hrest := ih (ms ++ [⟨c.1, c.2.1, c.2.2⟩]) hpc.2 hfree2
    rcases hmatch : registerAll rest (ms ++ [⟨c.1, c.2.1, c.2.2⟩]) with
      ⟨ms2, anyErr⟩
    rw [hmatch] at hrest
    simp only [registerAll, hreg, hmatch, Option.isSome_none, Bool.false_or]
    have h1 : anyErr = false := hrest.1
    have h2 : ms2.length = ms.length + 1 + rest.length := by
      have := hrest.2
      simpa [List.length_append] using this
    refine ⟨h1, ?_⟩
    simp only [List.length_cons]
    omega

/-- Claim C8: a sequence of Register calls with pairwise-distinct versions,
starting from the empty registry, never returns an error and leaves the
registry with exactly one entry per call; a Register call whose version is
already present returns VersionAlreadyRegistered and leaves the registry
unchanged. -/
theorem C8_register_unique_and_duplicate :
    (∀ calls : List (Int × Option (Option Err) × Option (Option Err)),
      (calls.map (fun c => c.1)).Pairwise (fun a b => a ≠ b) →
      (registerAll calls []).2 = false ∧
        (registerAll calls []).1.length = calls.length) ∧
    (∀ (ms : List migration) (v : Int) (up down : Option (Option Err)),
      (∃ m ∈ ms, m.Version = v) →
      Register ms v up down = (ms, some errVersionAlreadyRegistered)) := by
  refine ⟨?_, ?_⟩
  · intro calls hpw
    have := registerAll_ok calls [] hpw (by intro c _; rfl)
    simpa using this
  · intro ms v up down hex
    have hdup : versionAlreadyRegistered ms v = true := by
      rcases hex with ⟨m, hm, hv⟩
      simp only [versionAlreadyRegistered, List.any_eq_true]
      exact ⟨m, hm, by simp [hv]⟩
    simp [Register, hdup]

/-- Witness for C8 at concrete inputs. -/
theorem C8_register_unique_and_duplicate_witness :
    ((registerAll [(1, none, none), (2, none, none)] []).2 = false ∧
      (registerAll [(1, none, none), (2, none, none)] []).1.length = 2) ∧
    Register [⟨1, none, none⟩] 1 none none =
      ([⟨1, none, none⟩], some errVersionAlreadyRegistered) :=
  ⟨C8_register_unique_and_duplicate.1 [(1, none, none), (2, none, none)]
      (by decide),
   C8_register_unique_and_duplicate.2 [⟨1, none, none⟩] 1 none none
      ⟨⟨1, none, none⟩, by decide, rfl⟩⟩

end trek

namespace trek

theorem setVersion_ok_eq (env : Env) (config : configuration) (s : List Row)
    (v : Int) (r : Bool) (s1 : List Row)
    (h : setVersion env config s v r = Except.ok s1) :
    s1 = s ++ [⟨v, r⟩] := by
  unfold setVersion at h
  split at h
  · cases hins : env.insertResult v r with
    | some e => rw [hins] at h; exact absurd h (by simp)
    | none =>
      rw [hins] at h
      cases h
      rfl
  · exact absurd h (by simp)

theorem runUpLoop_rows_extend (env : Env) (config : configuration)
    (oldVersion : Int) :
    ∀ (ms : List migration) (newVersion : Int) (s : List Row),
      ∃ t, (runUpLoop env config oldVersion ms newVersion s).rows = s ++ t := by
  intro ms
  induction ms with
  | nil => intro newVersion s; exact ⟨[], by simp [runUpLoop]⟩
  | cons m rest ih =>
    intro newVersion s
    simp only [runUpLoop]
    split
    · exact ih newVersion s
    · cases hsv : setVersion env config s m.Version true with
      | error e => exact ⟨[], by simp [hsv]⟩
      | ok s1 =>
        have hs1 : s1 = s ++ [⟨m.Version, true⟩] :=
          setVersion_ok_eq env config s m.Version true s1 hsv
        subst hs1
        cases hup : m.Up with
        | some o =>
          cases o with
          | some e => exact ⟨[⟨m.Version, true⟩], by simp [hsv, hup]⟩
          | none =>
            cases hsv2 : setVersion env config (s ++ [⟨m.Version, true⟩])
                m.Version false with
            | error e2 =>
              exact ⟨[⟨m.Version, true⟩], by simp [hsv, hup, hsv2]⟩
            | ok s2 =>
              have hs2 : s2 = (s ++ [⟨m.Version, true⟩]) ++ [⟨m.Version, false⟩] :=
                setVersion_ok_eq env config _ m.Version false s2 hsv2
              subst hs2
              rcases ih m.Version ((s ++ [⟨m.Version, true⟩]) ++
                [⟨m.Version, false⟩]) with ⟨t, ht⟩
              refine ⟨⟨m.Version, true⟩ :: ⟨m.Version, false⟩ :: t, ?_⟩
              simp only [hsv, hup, hsv2, ht]
              simp
        | none =>
          cases hsv2 : setVersion env config (s ++ [⟨m.Version, true⟩])
              m.Version false with
          | error e2 =>
            exact ⟨[⟨m.Version, true⟩], by simp [hsv, hup, hsv2]⟩
          | ok s2 =>
            have hs2 : s2 = (s ++ [⟨m.Version, true⟩]) ++ [⟨m.Version, false⟩] :=
              setVersion_ok_eq env config _ m.Version false s2 hsv2
            subst hs2
            rcases ih m.Version ((s ++ [⟨m.Version, true⟩]) ++
              [⟨m.Version, false⟩]) with ⟨t, ht⟩
            refine ⟨⟨m.Version, true⟩ :: ⟨m.Version, false⟩ :: t, ?_⟩
            simp only [hsv, hup, hsv2, ht]
            simp

/-- Claim C1: during UP, a failure (either of a version-record write or of
the user up procedure) stops the run: the rows committed before the
failure remain (the history only grows), and on the concrete scenario with
versions 1 and 2 from current version 0, where version 2 fails either in
its up procedure or in its running-true record write, Run returns
(changed = true, newVersion = 1, that error), with version 1 committed. -/
theorem C1_up_failure_stops_and_commits :
    (∀ (env : Env) (config : configuration) (ms : List migration)
      (oldVersion : Int) (s : List Row),
      ∃ t, (runUp env config ms oldVersion s).rows = s ++ t) ∧
    (∀ (e : Err) (d1 d2 : Option (Option Err)),
      Run allOk [⟨1, some none, d1⟩, ⟨2, some (some e), d2⟩] [UP] [] =
        ⟨true, 1, some e, [⟨1, true⟩, ⟨1, false⟩, ⟨2, true⟩]⟩) ∧
    (∀ (e : Err) (d1 d2 : Option (Option Err)),
      Run (failInsert 2 true e) [⟨1, some none, d1⟩, ⟨2, some none, d2⟩]
          [UP] [] =
        ⟨true, 1, some e, [⟨1, true⟩, ⟨1, false⟩]⟩) := by
  refine ⟨?_, fun e d1 d2 => rfl, fun e d1 d2 => rfl⟩
  intro env config ms oldVersion s
  exact runUpLoop_rows_extend env config oldVersion ms oldVersion s

/-- Claim C2: whenever the most recent history row has running = true,
reading the current version fails with MigrationAlreadyRunning, and Run
(reaching that read: nonempty registry, table creation succeeding)
propagates that error and performs no migration step, leaving the history
unchanged. -/
theorem C2_running_flag_blocks_run :
    ∀ (s : List Row) (r : Row), s.getLast? = some r → r.running = true →
      getVersion s = (r.version, some errMigrationAlreadyRunning) ∧
      ∀ (env : Env) (ms : List migration) (opts : List String),
        ms ≠ [] → env.execCreate = none →
        Run env ms opts s = ⟨false, 0, some errMigrationAlreadyRunning, s⟩ := by
  intro s r hlast hrun
  have hgv : getVersion s = (r.version, some errMigrationAlreadyRunning) := by
    simp [getVersion, hlast, hrun]
  refine ⟨hgv, ?_⟩
  intro env ms opts hms hexec
  simp only [Run, if_neg hms, createTable_parseOptions, hexec, hgv]

/-- Witness for C2 at a concrete interrupted history. -/
theorem C2_running_flag_blocks_run_witness :
    getVersion [⟨1, true⟩] = (1, some errMigrationAlreadyRunning) ∧
    Run allOk [⟨1, none, none⟩] [] [⟨1, true⟩] =
      ⟨false, 0, some errMigrationAlreadyRunning, [⟨1, true⟩]⟩ := by
  have h := C2_running_flag_blocks_run [⟨1, true⟩] ⟨1, true⟩ rfl rfl
  exact ⟨h.1, h.2 allOk [⟨1, none, none⟩] [] (by decide) rfl⟩

end trek

namespace trek

theorem mem_insertByVersion (m : migration) :
    ∀ (l : List migration) (a : migration),
      a ∈ insertByVersion m l ↔ a = m ∨ a ∈ l := by
  intro l
  induction l with
  | nil => intro a; simp [insertByVersion]
  | cons x xs ih =>
    intro a
    simp only [insertByVersion]
    split
    · simp [List.mem_cons]
    · rw [List.mem_cons, ih a, List.mem_cons]
      tauto

theorem pairwise_insertByVersion (m : migration) :
    ∀ l : List migration,
      l.Pairwise (fun a b => a.Version ≤ b.Version) →
      (insertByVersion m l).Pairwise (fun a b => a.Version ≤ b.Version) := by
  intro l
  induction l with
  | nil => intro _; simp [insertByVersion]
  | cons x xs ih =>
    intro hpw
    have hpc := List.pairwise_cons.mp hpw
    simp only [insertByVersion]
    split
    · rename_i hle
      refine List.pairwise_cons.mpr ⟨?_, hpw⟩
      intro b hb
      rcases List.mem_cons.mp hb with he | hm
      · rw [he]; exact hle
      · exact le_trans hle (hpc.1 b hm)
    · rename_i hgt
      have hxm : x.Version ≤ m.Version := le_of_not_le hgt
      refine List.pairwise_cons.mpr ⟨?_, ih hpc.2⟩
      intro b hb
      rcases (mem_insertByVersion m xs b).mp hb with he | hm
      · rw [he]; exact hxm
      · exact hpc.1 b hm

theorem sortByVersion_pairwise :
    ∀ ms : List migration,
      (sortByVersion ms).Pairwise (fun a b => a.Version ≤ b.Version) := by
  intro ms
  induction ms with
  | nil => simp [sortByVersion]
  | cons m t ih => exact pairwise_insertByVersion m (sortByVersion t) ih

theorem mem_sortByVersion :
    ∀ (ms : List migration) (a : migration),
      a ∈ sortByVersion ms ↔ a ∈ ms := by
  intro ms
  induction ms with
  | nil => intro a; simp [sortByVersion]
  | cons m t ih =>
    intro a
    show a ∈ insertByVersion m (sortByVersion t) ↔ a ∈ m :: t
    rw [mem_insertByVersion, ih a, List.mem_cons]

theorem find?_desc_max (oldV : Int) :
    ∀ l : List migration,
      l.Pairwise (fun a b => b.Version ≤ a.Version) →
      ∀ m, l.find? (fun mm => decide (mm.Version ≤ oldV)) = some m →
        m.Version ≤ oldV ∧
          ∀ m2 ∈ l, m2.Version ≤ oldV → m2.Version ≤ m.Version := by
  intro l
  induction l with
  | nil => intro _ m h; exact absurd h (by simp)
  | cons a t ih =>
    intro hpw m hfind
    have hpc := List.pairwise_cons.mp hpw
    by_cases ha : a.Version ≤ oldV
    · rw [List.find?_cons_of_pos _ (by simpa using ha)] at hfind
      injection hfind with hma
      subst hma
      refine ⟨ha, ?_⟩
      intro m2 hm2 _
      rcases List.mem_cons.mp hm2 with he | hm
      · rw [he]
      · exact hpc.1 m2 hm
    · rw [List.find?_cons_of_neg _ (by simpa using ha)] at hfind
      have hrec := ih hpc.2 m hfind
      refine ⟨hrec.1, ?_⟩
      intro m2 hm2 hle
      rcases List.mem_cons.mp hm2 with he | hm
      · exact absurd (he ▸ hle) ha
      · exact hrec.2 m2 hm hle

/-- Claim C4: DOWN performs at most a single backward step. At current
version 0 it is a no-op, both at the engine level and through Run; at a
nonzero current version the engine steps down to the selected migration's
version minus one, recording running = true then running = false at that
new version; and the migration selected from the sorted registry is the
one with the greatest version at most the current version. -/
theorem C4_down_single_step :
    (∀ (env : Env) (config : configuration) (ms : List migration)
      (s : List Row), runDown env config ms 0 s = ⟨0, s, none⟩) ∧
    (∀ (env : Env) (ms : List migration) (opts : List String) (s : List Row),
      ms ≠ [] → env.execCreate = none → getVersion s = (0, none) →
      (parseOptions opts).Action = DOWN →
      Run env ms opts s = ⟨false, 0, none, s⟩) ∧
    (∀ (env : Env) (config : configuration) (ms : List migration)
      (oldV : Int) (s : List Row) (m : migration),
      oldV ≠ 0 →
      ms.reverse.find? (fun mm => decide (mm.Version ≤ oldV)) = some m →
      (config.Database = POSTGRES ∨ config.Database = MYSQL) →
      env.insertResult (m.Version - 1) true = none →
      env.insertResult (m.Version - 1) false = none →
      (m.Down = none ∨ m.Down = some none) →
      runDown env config ms oldV s =
        ⟨m.Version - 1,
          s ++ [⟨m.Version - 1, true⟩, ⟨m.Version - 1, false⟩], none⟩) ∧
    (∀ (ms : List migration) (oldV : Int) (m : migration),
      (sortByVersion ms).reverse.find?
          (fun mm => decide (mm.Version ≤ oldV)) = some m →
      m.Version ≤ oldV ∧
        ∀ m2 ∈ ms, m2.Version ≤ oldV → m2.Version ≤ m.Version) := by
  refine ⟨?_, ?_, ?_, ?_⟩
  · intro env config ms s
    simp [runDown]
  · intro env ms opts s hms hexec hgv hact
    simp only [Run, if_neg hms, createTable_parseOptions, hexec, hgv]
    simp only [runMigrations, hact]
    simp [runDown, DOWN, UP]
  · intro env config ms oldV s m holdV hfind hdb hins1 hins2 hdown
    have hdbeq : (config.Database == POSTGRES ||
        config.Database == MYSQL) = true := by
      rcases hdb with h | h <;> simp [h]
    have hset1 : setVersion env config s (m.Version - 1) true =
        Except.ok (s ++ [⟨m.Version - 1, true⟩]) := by
      simp [setVersion, hdbeq, hins1]
    have hset2 : setVersion env config (s ++ [⟨m.Version - 1, true⟩])
        (m.Version - 1) false =
        Except.ok (s ++ [⟨m.Version - 1, true⟩, ⟨m.Version - 1, false⟩]) := by
      simp [setVersion, hdbeq, hins2]
    rcases hdown with h | h <;>
      · simp only [runDown, if_neg holdV, hfind, hset1, h, hset2]
  · intro ms oldV m hfind
    have hdesc : (sortByVersion ms).reverse.Pairwise
        (fun a b => b.Version ≤ a.Version) :=
      List.pairwise_reverse.mpr (sortByVersion_pairwise ms)
    have h := find?_desc_max oldV (sortByVersion ms).reverse hdesc m hfind
    refine ⟨h.1, ?_⟩
    intro m2 hm2 hle
    exact h.2 m2 (List.mem_reverse.mpr ((mem_sortByVersion ms m2).mpr hm2)) hle

/-- Witness for C4 at concrete inputs: registry with the single migration
version 1, stepping down from version 1, and the no-op at version 0. -/
theorem C4_down_single_step_witness :
    runDown allOk ⟨DOWN, POSTGRES⟩ [⟨1, some none, some none⟩] 0 [] =
      ⟨0, [], none⟩ ∧
    Run allOk [⟨1, none, none⟩] [DOWN] [] = ⟨false, 0, none, []⟩ ∧
    runDown allOk ⟨DOWN, POSTGRES⟩ [⟨1, some none, some none⟩] 1 [] =
      ⟨0, [⟨0, true⟩, ⟨0, false⟩], none⟩ ∧
    (1 : Int) ≤ 1 :=
  ⟨C4_down_single_step.1 allOk ⟨DOWN, POSTGRES⟩ [⟨1, some none, some none⟩] [],
   C4_down_single_step.2.1 allOk [⟨1, none, none⟩] [DOWN] [] (by decide) rfl
     rfl (by decide),
   by
     have h := C4_down_single_step.2.2.1 allOk ⟨DOWN, POSTGRES⟩
       [⟨1, some none, some none⟩] 1 [] ⟨1, some none, some none⟩
       (by decide) (by decide) (Or.inl rfl) rfl rfl (Or.inr rfl)
     simpa using h,
   (C4_down_single_step.2.2.2 [⟨1, some none, some none⟩] 1
     ⟨1, some none, some none⟩ (by decide)).1⟩

end trek

namespace trek

/-- The migrations that an UP run actually applies: version strictly above
the current one AND an up handler present (absent handlers are skipped by
the loop guard). -/
def pendingUps (ms : List migration) (oldVersion : Int) : List migration :=
  ms.filter (fun m => decide (oldVersion < m.Version) && m.Up.isSome)

/-- The history rows recorded for a list of applied migrations. -/
def transitionRows : List migration → List Row
  | [] => []
  | m :: rest => ⟨m.Version, true⟩ :: ⟨m.Version, false⟩ :: transitionRows rest

/-- The version of the last migration in the list, defaulting to `d`. -/
def lastVersionFrom (d : Int) : List migration → Int
  | [] => d
  | m :: rest => lastVersionFrom m.Version rest

theorem runUpLoop_all_ok (env : Env) (config : configuration) (oldV : Int)
    (hdb : (config.Database == POSTGRES || config.Database == MYSQL) = true)
    (hins : ∀ v r, env.insertResult v r = none) :
    ∀ ms : List migration, (∀ m ∈ ms, m.Up = none ∨ m.Up = some none) →
      ∀ (newV : Int) (s : List Row),
        runUpLoop env config oldV ms newV s =
          ⟨lastVersionFrom newV (pendingUps ms oldV),
            s ++ transitionRows (pendingUps ms oldV), none⟩ := by
  intro ms
  induction ms with
  | nil =>
    intro _ newV s
    simp [runUpLoop, pendingUps, transitionRows, lastVersionFrom]
  | cons m rest ih =>
    intro hms newV s
    have hup : m.Up = none ∨ m.Up = some none := hms m (List.mem_cons_self m rest)
    have hrest : ∀ m2 ∈ rest, m2.Up = none ∨ m2.Up = some none :=
      fun m2 hm2 => hms m2 (List.mem_cons_of_mem m hm2)
    simp only [runUpLoop]
    split
    · rename_i h
      have hpred : (decide (oldV < m.Version) && m.Up.isSome) = false := by
        rcases h with h | h
        · have hnl : ¬ oldV < m.Version := not_lt.mpr h
          simp [hnl]
        · simp [h]
      have hpend : pendingUps (m :: rest) oldV = pendingUps rest oldV := by
        simp only [pendingUps, List.filter_cons, hpred]
        simp
      rw [hpend]
      exact ih hrest newV s
    · rename_i h
      push_neg at h
      have hlt : oldV < m.Version := h.1
      have hupeq : m.Up = some none := by
        rcases hup with h2 | h2
        · exact absurd h2 h.2
        · exact h2
      have hpred : (decide (oldV < m.Version) && m.Up.isSome) = true := by
        simp [hlt, hupeq]
      have hpend : pendingUps (m :: rest) oldV = m :: pendingUps rest oldV := by
        simp only [pendingUps, List.filter_cons, hpred]
        simp
      have hset1 : setVersion env config s m.Version true =
          Except.ok (s ++ [⟨m.Version, true⟩]) := by
        simp [setVersion, hdb, hins]
      have hset2 : setVersion env config (s ++ [⟨m.Version, true⟩])
          m.Version false =
          Except.ok (s ++ [⟨m.Version, true⟩, ⟨m.Version, false⟩]) := by
        simp [setVersion, hdb, hins]
      simp only [hset1, hupeq, hset2]
      rw [ih hrest]
      rw [hpend]
      simp [transitionRows, lastVersionFrom]

/-- Counterexample to claim C5: a registry with versions 1 and 2 where
version 2 has no up procedure, run UP from current version 0: the run
returns new version 1, not the greatest registered version 2, and records
no transition for version 2. -/
theorem C5_counterexample :
    Run allOk [⟨1, some none, none⟩, ⟨2, none, none⟩] [] [] =
      ⟨true, 1, none, [⟨1, true⟩, ⟨1, false⟩]⟩ ∧
    (Run allOk [⟨1, some none, none⟩, ⟨2, none, none⟩] [] []).newVersion ≠ 2 ∧
    (⟨2, true⟩ : Row) ∉
      (Run allOk [⟨1, some none, none⟩, ⟨2, none, none⟩] [] []).rows := by
  decide

/-- Claim C5 amended: during UP only the migrations whose version is
strictly greater than the current version AND whose up procedure is
present are applied; a pending migration with an absent up procedure is
skipped entirely (no running = true / running = false transition is
recorded for it), and on full success the new version is the version of
the last applied migration (the current version when none is applied),
not necessarily the greatest registered version. -/
theorem C5_amended_up_skips_absent_handlers :
    (∀ (ms : List migration) (oldV : Int) (m : migration),
      m ∈ pendingUps ms oldV ↔ m ∈ ms ∧ oldV < m.Version ∧ m.Up ≠ none) ∧
    (∀ (env : Env) (config : configuration) (ms : List migration)
      (oldV : Int) (s : List Row),
      (config.Database = POSTGRES ∨ config.Database = MYSQL) →
      (∀ v r, env.insertResult v r = none) →
      (∀ m ∈ ms, m.Up = none ∨ m.Up = some none) →
      runUp env config ms oldV s =
        ⟨lastVersionFrom oldV (pendingUps ms oldV),
          s ++ transitionRows (pendingUps ms oldV), none⟩) := by
  refine ⟨?_, ?_⟩
  · intro ms oldV m
    simp [pendingUps, List.mem_filter, Option.isSome_iff_ne_none, and_assoc]
  · intro env config ms oldV s hdb hins hms
    have hdbeq : (config.Database == POSTGRES ||
        config.Database == MYSQL) = true := by
      rcases hdb with h | h <;> simp [h]
    exact runUpLoop_all_ok env config oldV hdbeq hins ms hms oldV s

/-- Witness for the amended C5: version 2 has no up procedure and is
skipped, so the run from version 0 applies only version 1. -/
theorem C5_amended_up_skips_absent_handlers_witness :
    ((⟨2, none, none⟩ : migration) ∈
        pendingUps [⟨1, some none, none⟩, ⟨2, none, none⟩] 0 ↔
      (⟨2, none, none⟩ : migration) ∈
          ([⟨1, some none, none⟩, ⟨2, none, none⟩] : List migration) ∧
        (0 : Int) < 2 ∧ (none : Option (Option Err)) ≠ none) ∧
    runUp allOk ⟨UP, POSTGRES⟩ [⟨1, some none, none⟩, ⟨2, none, none⟩] 0 [] =
      ⟨lastVersionFrom 0 (pendingUps [⟨1, some none, none⟩, ⟨2, none, none⟩] 0),
        [] ++ transitionRows
          (pendingUps [⟨1, some none, none⟩, ⟨2, none, none⟩] 0), none⟩ :=
  ⟨C5_amended_up_skips_absent_handlers.1
      [⟨1, some none, none⟩, ⟨2, none, none⟩] 0 ⟨2, none, none⟩,
   C5_amended_up_skips_absent_handlers.2 allOk ⟨UP, POSTGRES⟩
      [⟨1, some none, none⟩, ⟨2, none, none⟩] 0 [] (Or.inl rfl)
      (fun _ _ => rfl) (by decide)⟩

/-- Counterexample to claim C6: current version 2, registry containing only
version 1 (so no migration matches the recorded version 2): DOWN does not
fail with PreviousMigrationNotFound; it steps down using migration 1 and
returns new version 0. -/
theorem C6_counterexample :
    Run allOk [⟨1, some none, some none⟩] [DOWN] [⟨2, false⟩] =
      ⟨true, 0, none, [⟨2, false⟩, ⟨0, true⟩, ⟨0, false⟩]⟩ ∧
    (Run allOk [⟨1, some none, some none⟩] [DOWN] [⟨2, false⟩]).err ≠
      some errPreviousMigrationNotFound ∧
    (Run allOk [⟨1, some none, some none⟩] [DOWN] [⟨2, false⟩]).newVersion ≠
      2 := by
  decide

/-- Claim C6 amended: for every current version v > 0, if every registered
migration's version is strictly greater than v (the registry contains no
migration with version at most v), DOWN fails with
PreviousMigrationNotFound and leaves the new version unchanged at v, both
at the engine level and through Run. -/
theorem C6_amended_down_not_found :
    (∀ (env : Env) (config : configuration) (ms : List migration)
      (oldV : Int) (s : List Row),
      oldV ≠ 0 → (∀ m ∈ ms, oldV < m.Version) →
      runDown env config ms oldV s =
        ⟨oldV, s, some errPreviousMigrationNotFound⟩) ∧
    (∀ (env : Env) (ms : List migration) (opts : List String) (v : Int)
      (s : List Row),
      ms ≠ [] → env.execCreate = none → v ≠ 0 →
      getVersion s = (v, none) →
      (parseOptions opts).Action = DOWN →
      (∀ m ∈ ms, v < m.Version) →
      Run env ms opts s = ⟨false, v, some errPreviousMigrationNotFound, s⟩) := by
  have hdown : ∀ (env : Env) (config : configuration) (ms : List migration)
      (oldV : Int) (s : List Row),
      oldV ≠ 0 → (∀ m ∈ ms, oldV < m.Version) →
      runDown env config ms oldV s =
        ⟨oldV, s, some errPreviousMigrationNotFound⟩ := by
    intro env config ms oldV s holdV hms
    have hfind : ms.reverse.find?
        (fun mm => decide (mm.Version ≤ oldV)) = none := by
      rw [List.find?_eq_none]
      intro x hx
      simpa using not_le.mpr (hms x (List.mem_reverse.mp hx))
    simp only [runDown, if_neg holdV, hfind]
  refine ⟨hdown, ?_⟩
  intro env ms opts v s hms hexec hv hgv hact hall
  have hall2 : ∀ m ∈ sortByVersion ms, v < m.Version :=
    fun m hm => hall m ((mem_sortByVersion ms m).mp hm)
  simp only [Run, if_neg hms, createTable_parseOptions, hexec, hgv]
  simp only [runMigrations, hact]
  rw [hdown env (parseOptions opts) (sortByVersion ms) v s hv hall2]
  simp [DOWN, UP]

/-- Witness for the amended C6: current version 2, registry containing only
version 3. -/
theorem C6_amended_down_not_found_witness :
    runDown allOk ⟨DOWN, POSTGRES⟩ [⟨3, none, none⟩] 2 [] =
      ⟨2, [], some errPreviousMigrationNotFound⟩ ∧
    Run allOk [⟨3, none, none⟩] [DOWN] [⟨2, false⟩] =
      ⟨false, 2, some errPreviousMigrationNotFound, [⟨2, false⟩]⟩ :=
  ⟨C6_amended_down_not_found.1 allOk ⟨DOWN, POSTGRES⟩ [⟨3, none, none⟩] 2 []
      (by decide) (by decide),
   C6_amended_down_not_found.2 allOk [⟨3, none, none⟩] [DOWN] 2 [⟨2, false⟩]
      (by decide) rfl (by decide) rfl (by decide) (by decide)⟩

end trek
